import Mathlib

/-!
Verification development for the GitHub internal knowledge-base pipeline:
a shallow embedding of the graph builder (`processor.py`), the technology
classifier, the vector index builder (`loader_vector.py`), the retrieval
engine (`qa_engine.py`) and the graph analyzer (`graph_analyzer.py`),
together with theorems settling the documented behavioural claims.
-/

namespace GKB

/-! ## Regular-expression engine

`processor.py` matches each technology signature with
`re.search(pattern, patch_text, re.IGNORECASE)`.  We embed the regex
dialect actually used by the catalog (literals, `\s`, `.`, `*`, `+`,
character classes, alternation, grouping) as a Brzozowski-derivative
matcher.  All character comparisons are case-insensitive, mirroring the
unconditional `re.IGNORECASE` flag. -/

inductive Rgx where
  | emp : Rgx
  | eps : Rgx
  | chr : Char → Rgx
  | cls : List Char → Rgx
  | anyc : Rgx
  | cat : Rgx → Rgx → Rgx
  | alt : Rgx → Rgx → Rgx
  | star : Rgx → Rgx
deriving DecidableEq

/-- Case-insensitive character comparison (ASCII suffices for the catalog). -/
def ciEq (c d : Char) : Bool := c.toLower == d.toLower

def nullable : Rgx → Bool
  | .emp => false
  | .eps => true
  | .chr _ => false
  | .cls _ => false
  | .anyc => false
  | .cat r₁ r₂ => nullable r₁ && nullable r₂
  | .alt r₁ r₂ => nullable r₁ || nullable r₂
  | .star _ => true

def rderiv (r : Rgx) (c : Char) : Rgx :=
  match r with
  | .emp => .emp
  | .eps => .emp
  | .chr d => if ciEq d c then .eps else .emp
  | .cls cs => if cs.any (fun d => ciEq d c) then .eps else .emp
  | .anyc => if c = '\n' then .emp else .eps
  | .cat r₁ r₂ =>
      if nullable r₁ then .alt (.cat (rderiv r₁ c) r₂) (rderiv r₂ c)
      else .cat (rderiv r₁ c) r₂
  | .alt r₁ r₂ => .alt (rderiv r₁ c) (rderiv r₂ c)
  | .star r₁ => .cat (rderiv r₁ c) (.star r₁)

/-- Does some prefix of `s` belong to the language of `r`? -/
def matchHere (r : Rgx) : List Char → Bool
  | [] => nullable r
  | c :: cs => nullable r || matchHere (rderiv r c) cs

/-- `re.search` semantics: does `r` match starting at any position of `s`? -/
def rsearch (r : Rgx) (s : List Char) : Bool :=
  match s with
  | [] => nullable r
  | _ :: cs => matchHere r s || rsearch r cs

/-- Concatenation of a list of regexes. -/
def cats (rs : List Rgx) : Rgx := rs.foldr .cat .eps

/-- A literal string (each character matched case-insensitively). -/
def litR (s : String) : Rgx := cats (s.data.map Rgx.chr)

/-- `\s` whitespace class (Python's ASCII whitespace). -/
def wsR : Rgx := .cls [' ', '\t', '\n', '\r', '\x0b', '\x0c']

/-- `r+` -/
def plusR (r : Rgx) : Rgx := .cat r (.star r)

/-- `\s+` -/
def ws1 : Rgx := plusR wsR

/-- `\s*` -/
def ws0 : Rgx := .star wsR

/-- `['"]` -/
def quoteR : Rgx := .cls ['\'', '"']

/-- `.*` -/
def dotStar : Rgx := .star .anyc

/-! ## TECHNOLOGY_PATTERNS (processor.py)

Each definition transcribes one entry of the `TECHNOLOGY_PATTERNS`
dictionary; the original regex source is given in the comment. -/

-- 'React': r'import\s+.*\s+from\s+[\'"]react[\'"]'
def reactPat : Rgx :=
  cats [litR "import", ws1, dotStar, ws1, litR "from", ws1, quoteR, litR "react", quoteR]

-- 'Vue': r'import\s+.*\s+from\s+[\'"]vue[\'"]'
def vuePat : Rgx :=
  cats [litR "import", ws1, dotStar, ws1, litR "from", ws1, quoteR, litR "vue", quoteR]

-- 'Svelte': r'import\s+.*\s+from\s+[\'"]svelte'
def sveltePat : Rgx :=
  cats [litR "import", ws1, dotStar, ws1, litR "from", ws1, quoteR, litR "svelte"]

-- 'Angular': r'import\s+.*\s+from\s+[\'"]@angular/core[\'"]'
def angularPat : Rgx :=
  cats [litR "import", ws1, dotStar, ws1, litR "from", ws1, quoteR, litR "@angular/core", quoteR]

-- 'TailwindCSS': r'tailwindcss|@tailwind'
def tailwindPat : Rgx := .alt (litR "tailwindcss") (litR "@tailwind")

-- 'Vite': r'import\s+.*\s+from\s+[\'"]vite[\'"]'
def vitePat : Rgx :=
  cats [litR "import", ws1, dotStar, ws1, litR "from", ws1, quoteR, litR "vite", quoteR]

-- 'Next.js': r'import\s+.*\s+from\s+[\'"]next/'
def nextPat : Rgx :=
  cats [litR "import", ws1, dotStar, ws1, litR "from", ws1, quoteR, litR "next/"]

-- 'Express': r'require\([\'"]express[\'"]\)|import\s+.*\s+from\s+[\'"]express[\'"]'
def expressPat : Rgx :=
  .alt (cats [litR "require(", quoteR, litR "express", quoteR, litR ")"])
       (cats [litR "import", ws1, dotStar, ws1, litR "from", ws1, quoteR, litR "express", quoteR])

-- 'FastAPI': r'import\s+.*\s+from\s+[\'"]fastapi[\'"]'
def fastapiPat : Rgx :=
  cats [litR "import", ws1, dotStar, ws1, litR "from", ws1, quoteR, litR "fastapi", quoteR]

-- 'Flask': r'import\s+.*\s+from\s+[\'"]flask[\'"]'
def flaskPat : Rgx :=
  cats [litR "import", ws1, dotStar, ws1, litR "from", ws1, quoteR, litR "flask", quoteR]

-- 'Django': r'import\s+.*\s+from\s+[\'"]django[\'"]'
def djangoPat : Rgx :=
  cats [litR "import", ws1, dotStar, ws1, litR "from", ws1, quoteR, litR "django", quoteR]

-- 'Pandas': r'import\s+pandas\s+as'
def pandasPat : Rgx := cats [litR "import", ws1, litR "pandas", ws1, litR "as"]

-- 'NumPy': r'import\s+numpy\s+as'
def numpyPat : Rgx := cats [litR "import", ws1, litR "numpy", ws1, litR "as"]

-- 'PyTorch': r'import\s+torch'
def pytorchPat : Rgx := cats [litR "import", ws1, litR "torch"]

-- 'TensorFlow': r'import\s+tensorflow\s+as'
def tensorflowPat : Rgx := cats [litR "import", ws1, litR "tensorflow", ws1, litR "as"]

-- 'LangChain': r'import\s+.*\s+from\s+[\'"]langchain'
def langchainPat : Rgx :=
  cats [litR "import", ws1, dotStar, ws1, litR "from", ws1, quoteR, litR "langchain"]

-- 'Docker': r'FROM\s+|docker-compose.yml|Dockerfile'  (the `.` is the regex wildcard)
def dockerPat : Rgx :=
  .alt (cats [litR "FROM", ws1])
       (.alt (cats [litR "docker-compose", .anyc, litR "yml"]) (litR "Dockerfile"))

-- 'GitHub Actions': r'on:\s+(push|pull_request)|jobs:'
def ghActionsPat : Rgx :=
  .alt (cats [litR "on:", ws1, .alt (litR "push") (litR "pull_request")]) (litR "jobs:")

-- 'Terraform': r'resource\s+[\'"]aws_'
def terraformPat : Rgx := cats [litR "resource", ws1, quoteR, litR "aws_"]

-- 'Kubernetes': r'apiVersion:\s+apps/v1|kind:\s+Deployment'
def kubernetesPat : Rgx :=
  .alt (cats [litR "apiVersion:", ws1, litR "apps/v1"])
       (cats [litR "kind:", ws1, litR "Deployment"])

-- 'SQLAlchemy': r'import\s+sqlalchemy'
def sqlalchemyPat : Rgx := cats [litR "import", ws1, litR "sqlalchemy"]

-- 'Prisma': r'import\s+{\s*PrismaClient\s*}\s+from\s+[\'"]@prisma/client[\'"]'
def prismaPat : Rgx :=
  cats [litR "import", ws1, .chr '\x7b', ws0, litR "PrismaClient", ws0, .chr '\x7d',
        ws1, litR "from", ws1, quoteR, litR "@prisma/client", quoteR]

-- 'PostgreSQL': r'postgresql:|psycopg2'
def postgresPat : Rgx := .alt (litR "postgresql:") (litR "psycopg2")

-- 'MongoDB': r'mongodb:|pymongo'
def mongoPat : Rgx := .alt (litR "mongodb:") (litR "pymongo")

-- 'GraphQL': r'import\s+.*\s+from\s+[\'"]graphql[\'"]|type\s+Query\s*{|type\s+Mutation\s*{'
def graphqlPat : Rgx :=
  .alt (cats [litR "import", ws1, dotStar, ws1, litR "from", ws1, quoteR, litR "graphql", quoteR])
       (.alt (cats [litR "type", ws1, litR "Query", ws0, .chr '\x7b'])
             (cats [litR "type", ws1, litR "Mutation", ws0, .chr '\x7b']))

/-- The fixed technology catalog of `processor.py`, in source order. -/
def TECHNOLOGY_PATTERNS : List (String × Rgx) :=
  [("React", reactPat), ("Vue", vuePat), ("Svelte", sveltePat), ("Angular", angularPat),
   ("TailwindCSS", tailwindPat), ("Vite", vitePat), ("Next.js", nextPat), ("Express", expressPat),
   ("FastAPI", fastapiPat), ("Flask", flaskPat), ("Django", djangoPat), ("Pandas", pandasPat),
   ("NumPy", numpyPat), ("PyTorch", pytorchPat), ("TensorFlow", tensorflowPat),
   ("LangChain", langchainPat), ("Docker", dockerPat), ("GitHub Actions", ghActionsPat),
   ("Terraform", terraformPat), ("Kubernetes", kubernetesPat), ("SQLAlchemy", sqlalchemyPat),
   ("Prisma", prismaPat), ("PostgreSQL", postgresPat), ("MongoDB", mongoPat),
   ("GraphQL", graphqlPat)]

/-- `analyze_patch_for_tech` (processor.py).  A `None` patch is `none`; the
Python guard `if not patch_text` also treats the empty string as absent.
The Python result is a `set`; we represent it as the list of matching
catalog names (catalog order, no repetitions since catalog keys are
distinct). -/
def analyze_patch_for_tech (patch_text : Option String) : List String :=
  match patch_text with
  | none => []
  | some t =>
      if t = "" then []
      else TECHNOLOGY_PATTERNS.filterMap
        (fun tp => if rsearch tp.2 t.data then some tp.1 else none)

example : analyze_patch_for_tech (some "import pandas as pd") = ["Pandas"] := by decide
example : analyze_patch_for_tech none = [] := by decide
example : analyze_patch_for_tech (some "IMPORT PANDAS AS PD") = ["Pandas"] := by decide

/-! ## Raw ingestion data (the JSON consumed by `process_raw_data`)

Fields not read by the graph builder (`state`, reviewers, comments,
commit author/email, file status/additions/deletions) are omitted; a
JSON `null` author is `none`. -/

structure FileData where
  filename : String
  patch : Option String
deriving DecidableEq

structure CommitData where
  sha : String
  message : String
  committed_at : String
  files : List FileData
deriving DecidableEq

structure PRData where
  number : Nat
  title : String
  body : String
  url : String
  created_at : String
  merged_at : String
  author : Option String
  commits : List CommitData
deriving DecidableEq

structure RepoData where
  full_name : String
  name : String
  description : String
  language : String
  url : String
  pull_requests : List PRData
deriving DecidableEq

/-! ## Graph representation (nodes.json / edges.json) -/

/-- Provenance properties carried by `CONTRIBUTED_TO_TECHNOLOGY` edges. -/
structure EdgeProps where
  in_pr : String
  in_commit : String
deriving DecidableEq

/-- A node record `{id, label, properties}`. -/
structure Node where
  id : String
  label : String
  properties : List (String × String)
deriving DecidableEq

/-- An edge record `{source, target, relationship, properties?}`; the three
plain relationship types carry no properties (`none`). -/
structure Edge where
  source : String
  target : String
  relationship : String
  properties : Option EdgeProps
deriving DecidableEq

/-! ## Graph Builder (`process_raw_data`, processor.py) -/

/-- The builder's running state: the `nodes` and `edges` accumulators plus
the `seen_nodes` dictionary (label ↦ keys already materialised). -/
structure BuildState where
  nodes : List Node
  edges : List Edge
  seen : String → List String

def initState : BuildState := { nodes := [], edges := [], seen := fun _ => [] }

/-- The `if key not in seen_nodes[label]: nodes.append(...);
seen_nodes[label].add(key)` pattern that `process_raw_data` repeats for
each of the six labels. -/
def addNode (st : BuildState) (label id : String) (props : List (String × String)) :
    BuildState :=
  if id ∈ st.seen label then st
  else { st with
          nodes := st.nodes ++ [⟨id, label, props⟩],
          seen := fun l => if l = label then id :: st.seen l else st.seen l }

def appendEdge (st : BuildState) (e : Edge) : BuildState :=
  { st with edges := st.edges ++ [e] }

/-- The file node key `f"{repo_id}/{filename}"`. -/
def fileId (repoId : String) (fd : FileData) : String := repoId ++ "/" ++ fd.filename

/-- The pull-request node key `f"{repo_id}/pr/{number}"`. -/
def prIdOf (repoId : String) (pr : PRData) : String :=
  repoId ++ "/pr/" ++ toString pr.number

/-- The author id after Python truthiness: `if author_id:` is falsy both
for `None` and for the empty string. -/
def normAuthor (pr : PRData) : Option String :=
  match pr.author with
  | some a => if a = "" then none else some a
  | none => none

/-- Step 5 of the builder: one changed file under a commit. -/
def processFile (repoId prId : String) (author : Option String) (commitId : String)
    (st : BuildState) (fd : FileData) : BuildState :=
  let file_id := fileId repoId fd
  let st := addNode st "File" file_id [("path", fd.filename)]
  let st := appendEdge st ⟨commitId, file_id, "MODIFIED", none⟩
  let technologies := analyze_patch_for_tech fd.patch
  technologies.foldl
    (fun st tech =>
      let st := addNode st "Technology" tech [("name", tech)]
      match author with
      | some a =>
          appendEdge st ⟨a, tech, "CONTRIBUTED_TO_TECHNOLOGY", some ⟨prId, commitId⟩⟩
      | none => st)
    st

/-- Step 4 of the builder: one commit under a pull request. -/
def processCommit (repoId prId : String) (author : Option String)
    (st : BuildState) (cd : CommitData) : BuildState :=
  let commit_id := cd.sha
  let st := addNode st "Commit" commit_id
    [("message", cd.message), ("committed_at", cd.committed_at)]
  let st := appendEdge st ⟨prId, commit_id, "INCLUDES", none⟩
  cd.files.foldl (processFile repoId prId author commit_id) st

/-- Steps 2–3 of the builder: one pull request.  Python's `if author_id:`
is falsy both for `None` and for the empty string, so an empty-string
author is normalised to `none` up front. -/
def processPR (repoId : String) (st : BuildState) (pr : PRData) : BuildState :=
  let pr_id := prIdOf repoId pr
  let st := addNode st "PullRequest" pr_id
    [("title", pr.title), ("body", pr.body), ("url", pr.url),
     ("created_at", pr.created_at), ("merged_at", pr.merged_at)]
  let author_id : Option String := normAuthor pr
  let st := match author_id with
    | some a => addNode st "User" a [("login", a)]
    | none => st
  let st := match author_id with
    | some a => appendEdge st ⟨a, pr_id, "AUTHORED", none⟩
    | none => st
  pr.commits.foldl (processCommit repoId pr_id author_id) st

/-- Step 1 of the builder: one repository record. -/
def processRepo (st : BuildState) (repo : RepoData) : BuildState :=
  let repo_id := repo.full_name
  let st := addNode st "Repo" repo_id
    [("name", repo.name), ("description", repo.description),
     ("language", repo.language), ("url", repo.url)]
  repo.pull_requests.foldl (processPR repo_id) st

/-- `process_raw_data` (processor.py).  File input is modelled as
`Option (List RepoData)`: `none` is the `FileNotFoundError` path (missing
file), `some data` the successfully parsed JSON document. -/
def process_raw_data (data : Option (List RepoData)) : List Node × List Edge :=
  match data with
  | none => ([], [])
  | some repos =>
      let st := repos.foldl processRepo initState
      (st.nodes, st.edges)

/-! ## Edge contributions

The builder appends edges unconditionally (they never consult the
seen-sets), so the edge list decomposes into per-repo / per-PR /
per-commit / per-file contributions.  The functions below name those
contributions; `process_edges_eq` proves the decomposition. -/

def c2tEdges (author : Option String) (prId commitId : String) (fd : FileData) :
    List Edge :=
  match author with
  | some a =>
      (analyze_patch_for_tech fd.patch).map
        (fun tech => ⟨a, tech, "CONTRIBUTED_TO_TECHNOLOGY", some ⟨prId, commitId⟩⟩)
  | none => []

def fileEdges (repoId prId : String) (author : Option String) (commitId : String)
    (fd : FileData) : List Edge :=
  ⟨commitId, fileId repoId fd, "MODIFIED", none⟩ :: c2tEdges author prId commitId fd

def commitEdges (repoId prId : String) (author : Option String) (cd : CommitData) :
    List Edge :=
  ⟨prId, cd.sha, "INCLUDES", none⟩ ::
    cd.files.flatMap (fileEdges repoId prId author cd.sha)

def prEdges (repoId : String) (pr : PRData) : List Edge :=
  (match normAuthor pr with
   | some a => [⟨a, prIdOf repoId pr, "AUTHORED", none⟩]
   | none => []) ++
  pr.commits.flatMap (commitEdges repoId (prIdOf repoId pr) (normAuthor pr))

def repoEdges (repo : RepoData) : List Edge :=
  repo.pull_requests.flatMap (prEdges repo.full_name)

def specEdges (data : List RepoData) : List Edge := data.flatMap repoEdges

lemma addNode_edges (st : BuildState) (label id : String) (props) :
    (addNode st label id props).edges = st.edges := by
  unfold addNode; split <;> rfl

lemma flatMap_single {α β : Type} (f : α → β) :
    ∀ l : List α, (l.flatMap fun x => [f x]) = l.map f := by
  intro l
  induction l with
  | nil => rfl
  | cons x xs ih => simp [ih]

lemma foldl_edges {α : Type} (f : BuildState → α → BuildState) (g : α → List Edge)
    (h : ∀ st x, (f st x).edges = st.edges ++ g x) :
    ∀ (l : List α) (st : BuildState),
      (l.foldl f st).edges = st.edges ++ l.flatMap g := by
  intro l
  induction l with
  | nil => intro st; simp
  | cons x xs ih =>
      intro st
      simp only [List.foldl_cons, List.flatMap_cons, ih, h st x, List.append_assoc]

lemma processFile_edges (repoId prId : String) (author : Option String)
    (commitId : String) (st : BuildState) (fd : FileData) :
    (processFile repoId prId author commitId st fd).edges =
      st.edges ++ fileEdges repoId prId author commitId fd := by
  have hstep : ∀ (st : BuildState) (tech : String),
      ((fun st tech =>
          let st := addNode st "Technology" tech [("name", tech)]
          match author with
          | some a =>
              appendEdge st ⟨a, tech, "CONTRIBUTED_TO_TECHNOLOGY", some ⟨prId, commitId⟩⟩
          | none => st) st tech).edges =
        st.edges ++
          (match author with
           | some a =>
               [(⟨a, tech, "CONTRIBUTED_TO_TECHNOLOGY", some ⟨prId, commitId⟩⟩ : Edge)]
           | none => []) := by
    intro st tech
    cases author with
    | some a => simp [appendEdge, addNode_edges]
    | none => simp [addNode_edges]
  unfold processFile fileEdges
  rw [foldl_edges _ _ hstep]
  simp only [appendEdge, addNode_edges, List.append_assoc, List.cons_append,
    List.nil_append]
  cases author with
  | some a => simp [c2tEdges, flatMap_single]
  | none => simp [c2tEdges]

lemma processCommit_edges (repoId prId : String) (author : Option String)
    (st : BuildState) (cd : CommitData) :
    (processCommit repoId prId author st cd).edges =
      st.edges ++ commitEdges repoId prId author cd := by
  unfold processCommit commitEdges
  rw [foldl_edges _ (fileEdges repoId prId author cd.sha)
        (fun st fd => processFile_edges repoId prId author cd.sha st fd)]
  simp [appendEdge, addNode_edges]

lemma processPR_edges (repoId : String) (st : BuildState) (pr : PRData) :
    (processPR repoId st pr).edges = st.edges ++ prEdges repoId pr := by
  have hfold : ∀ st' : BuildState,
      (pr.commits.foldl (processCommit repoId (prIdOf repoId pr) (normAuthor pr)) st').edges
        = st'.edges ++
          pr.commits.flatMap (commitEdges repoId (prIdOf repoId pr) (normAuthor pr)) :=
    fun st' => foldl_edges _ _
      (fun st cd => processCommit_edges repoId (prIdOf repoId pr) (normAuthor pr) st cd)
      pr.commits st'
  simp only [processPR, prEdges]
  cases hna : normAuthor pr with
  | none => rw [hna] at hfold; simp [hna, hfold, addNode_edges]
  | some a => rw [hna] at hfold; simp [hna, hfold, appendEdge, addNode_edges]

lemma processRepo_edges (st : BuildState) (repo : RepoData) :
    (processRepo st repo).edges = st.edges ++ repoEdges repo := by
  unfold processRepo repoEdges
  rw [foldl_edges _ (prEdges repo.full_name)
        (fun st pr => processPR_edges repo.full_name st pr)]
  simp [addNode_edges]

/-- The edge list produced by the builder is exactly the concatenation of
the per-repo contributions, in input order. -/
lemma process_edges_eq (data : List RepoData) :
    (process_raw_data (some data)).2 = specEdges data := by
  unfold process_raw_data specEdges
  have := foldl_edges processRepo repoEdges
    (fun st repo => processRepo_edges st repo) data initState
  simpa [initState] using this

/-! ## CONTRIBUTED_TO_TECHNOLOGY edge granularity (Claim C1) -/

def isC2T (e : Edge) : Bool := e.relationship == "CONTRIBUTED_TO_TECHNOLOGY"

/-- The `CONTRIBUTED_TO_TECHNOLOGY` edges as a function of the raw input:
one edge per (author, detected technology, file, commit) match, with
provenance `{in_pr, in_commit}`. -/
def c2tSpec (data : List RepoData) : List Edge :=
  data.flatMap fun repo => repo.pull_requests.flatMap fun pr =>
    match normAuthor pr with
    | none => []
    | some a =>
        pr.commits.flatMap fun cd => cd.files.flatMap fun fd =>
          (analyze_patch_for_tech fd.patch).map fun tech =>
            ⟨a, tech, "CONTRIBUTED_TO_TECHNOLOGY",
             some ⟨prIdOf repo.full_name pr, cd.sha⟩⟩

lemma filter_flatMap {α β : Type} (p : β → Bool) (f : α → List β) :
    ∀ l : List α, (l.flatMap f).filter p = l.flatMap fun x => (f x).filter p := by
  intro l
  induction l with
  | nil => rfl
  | cons x xs ih => simp [List.filter_append, ih]

lemma filter_c2t_fileEdges (repoId prId : String) (author : Option String)
    (commitId : String) (fd : FileData) :
    (fileEdges repoId prId author commitId fd).filter isC2T =
      c2tEdges author prId commitId fd := by
  unfold fileEdges
  rw [List.filter_cons]
  cases author with
  | some a => simp [isC2T, c2tEdges, List.filter_map, Function.comp_def]
  | none => simp [isC2T, c2tEdges]

lemma filter_c2t_commitEdges (repoId prId : String) (author : Option String)
    (cd : CommitData) :
    (commitEdges repoId prId author cd).filter isC2T =
      cd.files.flatMap fun fd => c2tEdges author prId cd.sha fd := by
  unfold commitEdges
  rw [List.filter_cons]
  simp only [isC2T]
  rw [if_neg (by decide), filter_flatMap]
  exact List.flatMap_congr fun fd _ => filter_c2t_fileEdges repoId prId author cd.sha fd

lemma filter_c2t_prEdges (repoId : String) (pr : PRData) :
    (prEdges repoId pr).filter isC2T =
      match normAuthor pr with
      | none => []
      | some a =>
          pr.commits.flatMap fun cd => cd.files.flatMap fun fd =>
            (analyze_patch_for_tech fd.patch).map fun tech =>
              ⟨a, tech, "CONTRIBUTED_TO_TECHNOLOGY", some ⟨prIdOf repoId pr, cd.sha⟩⟩ := by
  unfold prEdges
  rw [List.filter_append, filter_flatMap]
  cases hna : normAuthor pr with
  | none =>
      simp only [List.nil_append, List.filter_nil]
      have : ∀ cd ∈ pr.commits,
          (commitEdges repoId (prIdOf repoId pr) none cd).filter isC2T = [] := by
        intro cd _
        rw [filter_c2t_commitEdges]
        simp [c2tEdges]
      simp [List.flatMap_congr this]
  | some a =>
      have hall : ∀ cd ∈ pr.commits,
          (commitEdges repoId (prIdOf repoId pr) (some a) cd).filter isC2T =
            cd.files.flatMap fun fd =>
              (analyze_patch_for_tech fd.patch).map fun tech =>
                ⟨a, tech, "CONTRIBUTED_TO_TECHNOLOGY", some ⟨prIdOf repoId pr, cd.sha⟩⟩ := by
        intro cd _
        rw [filter_c2t_commitEdges]
        exact List.flatMap_congr fun fd _ => by simp [c2tEdges]
      simp [isC2T, List.flatMap_congr hall]

/-- Claim C1, amended: the builder's `CONTRIBUTED_TO_TECHNOLOGY` edges are
exactly one edge per (author, technology, **file**, commit) detection —
for each repository record, each authored pull request, each commit, each
changed file, and each technology whose pattern matches that file's patch
— each stamped with `{in_pr, in_commit}` provenance, with no
deduplication. -/
theorem c1_amended_one_edge_per_file_match (data : List RepoData) :
    ((process_raw_data (some data)).2).filter isC2T = c2tSpec data := by
  rw [process_edges_eq]
  unfold specEdges c2tSpec
  rw [filter_flatMap]
  refine List.flatMap_congr fun repo _ => ?_
  unfold repoEdges
  rw [filter_flatMap]
  exact List.flatMap_congr fun pr _ => filter_c2t_prEdges repo.full_name pr

/-- A single repository record whose only pull request (author `alice`)
has one commit `c1` touching two files, both with a Pandas-importing
patch. -/
def c1Repo : RepoData :=
  { full_name := "acme/app", name := "app", description := "d",
    language := "Python", url := "u",
    pull_requests :=
      [{ number := 1, title := "t", body := "b", url := "pu",
         created_at := "ca", merged_at := "ma", author := some "alice",
         commits :=
           [{ sha := "c1", message := "m", committed_at := "ct",
              files :=
                [{ filename := "a.py", patch := some "import pandas as pd" },
                 { filename := "b.py", patch := some "import pandas as pd" }] }] }] }

/-- Claim C1 as stated is false: the input `[c1Repo]` contains exactly one
occurrence of commit `c1` (second conjunct), yet the builder emits two
`CONTRIBUTED_TO_TECHNOLOGY` edges for the single (user `alice`,
technology `Pandas`, commit `c1`) combination — one per matching file —
and the two edges are indistinguishable (same source, target and
provenance), so edge counts measure per-file matches, not per-commit
occurrences. -/
theorem c1_counterexample :
    (((process_raw_data (some [c1Repo])).2).filter fun e =>
        e.relationship == "CONTRIBUTED_TO_TECHNOLOGY" && e.source == "alice" &&
        e.target == "Pandas" &&
        e.properties == some ⟨"acme/app/pr/1", "c1"⟩).length = 2
    ∧ ([c1Repo].flatMap fun r =>
        r.pull_requests.flatMap fun pr => pr.commits.map (·.sha)) = ["c1"] := by
  constructor
  · decide
  · decide

/-! ## Missing input file (Claim C10) -/

/-- Claim C10: a missing input file (the `FileNotFoundError` branch,
modelled as `none`) yields `([], [])`, exactly as an input document
containing no repositories does — the two are indistinguishable by the
return value alone. -/
theorem c10_missing_file_empty_result :
    process_raw_data none = ([], []) ∧ process_raw_data (some []) = ([], []) := by
  constructor
  · rfl
  · rfl

/-! ## Node deduplication invariant (Claims C3, C4) -/

/-- The (label, key) pairs of a node list. -/
def pairsOf (ns : List Node) : List (String × String) := ns.map fun n => (n.label, n.id)

/-- Builder invariant: the `seen_nodes` dictionary holds exactly the
materialised (label, key) pairs, and those pairs are duplicate-free. -/
def Inv (st : BuildState) : Prop :=
  (∀ L id, id ∈ st.seen L ↔ (L, id) ∈ pairsOf st.nodes) ∧ (pairsOf st.nodes).Nodup

lemma inv_init : Inv initState := by
  constructor
  · intro L id; simp [initState, pairsOf]
  · simp [initState, pairsOf]

lemma pairsOf_append (ns ms : List Node) :
    pairsOf (ns ++ ms) = pairsOf ns ++ pairsOf ms := by
  simp [pairsOf]

lemma inv_addNode (st : BuildState) (L id : String) (props) (h : Inv st) :
    Inv (addNode st L id props) := by
  unfold addNode
  split
  · exact h
  · rename_i hid
    obtain ⟨hseen, hnd⟩ := h
    have hpair : (L, id) ∉ pairsOf st.nodes := fun hc => hid ((hseen L id).mpr hc)
    refine ⟨?_, ?_⟩
    · intro L' id'
      show (id' ∈ if L' = L then id :: st.seen L' else st.seen L') ↔
        (L', id') ∈ pairsOf (st.nodes ++ [⟨id, L, props⟩])
      rw [pairsOf_append]
      have hsing : ((L', id') ∈ pairsOf [(⟨id, L, props⟩ : Node)]) ↔ (L' = L ∧ id' = id) := by
        simp [pairsOf, Prod.ext_iff]
      by_cases hL : L' = L
      · subst hL
        rw [if_pos rfl]
        simp only [List.mem_cons, List.mem_append, hsing]
        rw [hseen]
        tauto
      · rw [if_neg hL]
        simp only [List.mem_append, hsing]
        rw [hseen]
        tauto
    · show (pairsOf (st.nodes ++ [⟨id, L, props⟩])).Nodup
      rw [pairsOf_append]
      have hs : pairsOf [(⟨id, L, props⟩ : Node)] = [(L, id)] := rfl
      rw [hs,
        show pairsOf st.nodes ++ [(L, id)] = pairsOf st.nodes ++ (L, id) :: [] from rfl,
        List.nodup_middle]
      exact List.nodup_cons.mpr ⟨by simpa using hpair, by simpa using hnd⟩

lemma inv_appendEdge (st : BuildState) (e : Edge) (h : Inv st) :
    Inv (appendEdge st e) := h

lemma foldl_pres {α : Type} (P : BuildState → Prop) (f : BuildState → α → BuildState)
    (hf : ∀ st x, P st → P (f st x)) :
    ∀ (l : List α) (st : BuildState), P st → P (l.foldl f st) := by
  intro l
  induction l with
  | nil => intro st h; exact h
  | cons x xs ih => intro st h; exact ih _ (hf st x h)

lemma inv_processFile (repoId prId : String) (author : Option String)
    (commitId : String) (st : BuildState) (fd : FileData) (h : Inv st) :
    Inv (processFile repoId prId author commitId st fd) := by
  unfold processFile
  apply foldl_pres Inv
  · intro st tech hst
    cases author with
    | some a => exact inv_appendEdge _ _ (inv_addNode _ _ _ _ hst)
    | none => exact inv_addNode _ _ _ _ hst
  · exact inv_appendEdge _ _ (inv_addNode _ _ _ _ h)

lemma inv_processCommit (repoId prId : String) (author : Option String)
    (st : BuildState) (cd : CommitData) (h : Inv st) :
    Inv (processCommit repoId prId author st cd) := by
  unfold processCommit
  apply foldl_pres Inv
  · intro st fd hst; exact inv_processFile _ _ _ _ _ _ hst
  · exact inv_appendEdge _ _ (inv_addNode _ _ _ _ h)

lemma inv_processPR (repoId : String) (st : BuildState) (pr : PRData) (h : Inv st) :
    Inv (processPR repoId st pr) := by
  unfold processPR
  apply foldl_pres Inv
  · intro st cd hst; exact inv_processCommit _ _ _ _ _ hst
  · cases normAuthor pr with
    | some a => exact inv_appendEdge _ _ (inv_addNode _ _ _ _ (inv_addNode _ _ _ _ h))
    | none => exact inv_addNode _ _ _ _ h

lemma inv_processRepo (st : BuildState) (repo : RepoData) (h : Inv st) :
    Inv (processRepo st repo) := by
  unfold processRepo
  apply foldl_pres Inv
  · intro st pr hst; exact inv_processPR _ _ _ hst
  · exact inv_addNode _ _ _ _ h

/-- The final state of a build run. -/
def finalState (data : List RepoData) : BuildState := data.foldl processRepo initState

lemma inv_finalState (data : List RepoData) : Inv (finalState data) :=
  foldl_pres Inv processRepo (fun st repo => inv_processRepo st repo) data initState inv_init

lemma process_raw_data_some (data : List RepoData) :
    process_raw_data (some data) = ((finalState data).nodes, (finalState data).edges) := rfl

/-! ## Monotonicity: the builder only ever appends -/

def Mono (st st' : BuildState) : Prop :=
  (∃ l, st'.nodes = st.nodes ++ l) ∧ (∃ l, st'.edges = st.edges ++ l) ∧
  ∀ L id, id ∈ st.seen L → id ∈ st'.seen L

lemma mono_refl (st : BuildState) : Mono st st :=
  ⟨⟨[], by simp⟩, ⟨[], by simp⟩, fun _ _ h => h⟩

lemma mono_trans {s t u : BuildState} (h1 : Mono s t) (h2 : Mono t u) : Mono s u := by
  obtain ⟨⟨l1, hn1⟩, ⟨e1, he1⟩, hs1⟩ := h1
  obtain ⟨⟨l2, hn2⟩, ⟨e2, he2⟩, hs2⟩ := h2
  exact ⟨⟨l1 ++ l2, by rw [hn2, hn1, List.append_assoc]⟩,
         ⟨e1 ++ e2, by rw [he2, he1, List.append_assoc]⟩,
         fun L id h => hs2 L id (hs1 L id h)⟩

lemma mono_addNode (st : BuildState) (L id : String) (props) :
    Mono st (addNode st L id props) := by
  unfold addNode
  split
  · exact mono_refl st
  · refine ⟨⟨[⟨id, L, props⟩], rfl⟩, ⟨[], by simp⟩, ?_⟩
    intro L' id' h
    show id' ∈ if L' = L then id :: st.seen L' else st.seen L'
    split
    · exact List.mem_cons_of_mem _ h
    · exact h

lemma mono_appendEdge (st : BuildState) (e : Edge) : Mono st (appendEdge st e) :=
  ⟨⟨[], by simp [appendEdge]⟩, ⟨[e], rfl⟩, fun _ _ h => h⟩

lemma foldl_mono {α : Type} (f : BuildState → α → BuildState)
    (hf : ∀ st x, Mono st (f st x)) :
    ∀ (l : List α) (st : BuildState), Mono st (l.foldl f st) := by
  intro l
  induction l with
  | nil => intro st; exact mono_refl st
  | cons x xs ih => intro st; exact mono_trans (hf st x) (ih (f st x))

lemma mono_processFile (repoId prId : String) (author : Option String)
    (commitId : String) (st : BuildState) (fd : FileData) :
    Mono st (processFile repoId prId author commitId st fd) := by
  unfold processFile
  refine mono_trans (mono_trans (mono_addNode _ _ _ _) (mono_appendEdge _ _))
    (foldl_mono _ ?_ _ _)
  intro st' tech
  cases author with
  | some a => exact mono_trans (mono_addNode _ _ _ _) (mono_appendEdge _ _)
  | none => exact mono_addNode _ _ _ _

lemma mono_processCommit (repoId prId : String) (author : Option String)
    (st : BuildState) (cd : CommitData) :
    Mono st (processCommit repoId prId author st cd) := by
  unfold processCommit
  exact mono_trans (mono_trans (mono_addNode _ _ _ _) (mono_appendEdge _ _))
    (foldl_mono _ (fun st' fd => mono_processFile repoId prId author cd.sha st' fd) _ _)

lemma mono_processPR (repoId : String) (st : BuildState) (pr : PRData) :
    Mono st (processPR repoId st pr) := by
  simp only [processPR]
  cases hna : normAuthor pr with
  | none =>
      exact mono_trans (mono_addNode _ _ _ _)
        (foldl_mono _ (fun st' cd => mono_processCommit _ _ _ st' cd) _ _)
  | some a =>
      exact mono_trans
        (mono_trans (mono_trans (mono_addNode _ _ _ _) (mono_addNode _ _ _ _))
          (mono_appendEdge _ _))
        (foldl_mono _ (fun st' cd => mono_processCommit _ _ _ st' cd) _ _)

lemma mono_processRepo (st : BuildState) (repo : RepoData) :
    Mono st (processRepo st repo) := by
  unfold processRepo
  exact mono_trans (mono_addNode _ _ _ _)
    (foldl_mono _ (fun st' pr => mono_processPR repo.full_name st' pr) _ _)

/-! ## Establishment: processed keys end up in the seen dictionary -/

lemma addNode_seen_self (st : BuildState) (L id : String) (props) :
    id ∈ (addNode st L id props).seen L := by
  unfold addNode
  split
  · assumption
  · show id ∈ if L = L then id :: st.seen L else st.seen L
    rw [if_pos rfl]
    exact List.mem_cons_self id _

lemma foldl_estab {α : Type} (f : BuildState → α → BuildState)
    (Q : BuildState → Prop) (hpres : ∀ st y, Q st → Q (f st y))
    {x : α} {l : List α} (hx : x ∈ l) (hest : ∀ st, Q (f st x)) :
    ∀ st : BuildState, Q (l.foldl f st) := by
  induction l with
  | nil => cases hx
  | cons y ys ih =>
      intro st
      rcases List.mem_cons.mp hx with h | h
      · subst h
        exact foldl_pres Q f hpres ys (f st x) (hest st)
      · exact ih h (f st y)

lemma processFile_seen_file (repoId prId : String) (author : Option String)
    (commitId : String) (st : BuildState) (fd : FileData) :
    fileId repoId fd ∈ (processFile repoId prId author commitId st fd).seen "File" := by
  unfold processFile
  refine (foldl_mono _ ?_ _ _).2.2 "File" _ ?_
  · intro st' tech
    cases author with
    | some a => exact mono_trans (mono_addNode _ _ _ _) (mono_appendEdge _ _)
    | none => exact mono_addNode _ _ _ _
  · show fileId repoId fd ∈
      (addNode st "File" (fileId repoId fd) [("path", fd.filename)]).seen "File"
    exact addNode_seen_self _ _ _ _

lemma processCommit_seen_sha (repoId prId : String) (author : Option String)
    (st : BuildState) (cd : CommitData) :
    cd.sha ∈ (processCommit repoId prId author st cd).seen "Commit" := by
  unfold processCommit
  refine (foldl_mono _ (fun st' fd => mono_processFile repoId prId author cd.sha st' fd)
    _ _).2.2 "Commit" _ ?_
  show cd.sha ∈ (addNode st "Commit" cd.sha
    [("message", cd.message), ("committed_at", cd.committed_at)]).seen "Commit"
  exact addNode_seen_self _ _ _ _

lemma processCommit_seen_file (repoId prId : String) (author : Option String)
    (st : BuildState) (cd : CommitData) {fd : FileData} (hfd : fd ∈ cd.files) :
    fileId repoId fd ∈ (processCommit repoId prId author st cd).seen "File" := by
  unfold processCommit
  exact foldl_estab _ (fun st' => fileId repoId fd ∈ st'.seen "File")
    (fun st' y h => (mono_processFile repoId prId author cd.sha st' y).2.2 _ _ h)
    hfd (fun st' => processFile_seen_file repoId prId author cd.sha st' fd) _

lemma processPR_seen_sha (repoId : String) (st : BuildState) (pr : PRData)
    {cd : CommitData} (hcd : cd ∈ pr.commits) :
    cd.sha ∈ (processPR repoId st pr).seen "Commit" := by
  simp only [processPR]
  exact foldl_estab _ (fun st' => cd.sha ∈ st'.seen "Commit")
    (fun st' y h => (mono_processCommit _ _ _ st' y).2.2 _ _ h)
    hcd (fun st' => processCommit_seen_sha _ _ _ st' cd) _

lemma processPR_seen_file (repoId : String) (st : BuildState) (pr : PRData)
    {cd : CommitData} (hcd : cd ∈ pr.commits) {fd : FileData} (hfd : fd ∈ cd.files) :
    fileId repoId fd ∈ (processPR repoId st pr).seen "File" := by
  simp only [processPR]
  exact foldl_estab _ (fun st' => fileId repoId fd ∈ st'.seen "File")
    (fun st' y h => (mono_processCommit _ _ _ st' y).2.2 _ _ h)
    hcd (fun st' => processCommit_seen_file _ _ _ st' cd hfd) _

lemma processRepo_seen_sha (st : BuildState) (repo : RepoData)
    {pr : PRData} (hpr : pr ∈ repo.pull_requests)
    {cd : CommitData} (hcd : cd ∈ pr.commits) :
    cd.sha ∈ (processRepo st repo).seen "Commit" := by
  unfold processRepo
  exact foldl_estab _ (fun st' => cd.sha ∈ st'.seen "Commit")
    (fun st' y h => (mono_processPR _ st' y).2.2 _ _ h)
    hpr (fun st' => processPR_seen_sha _ st' pr hcd) _

lemma processRepo_seen_file (st : BuildState) (repo : RepoData)
    {pr : PRData} (hpr : pr ∈ repo.pull_requests)
    {cd : CommitData} (hcd : cd ∈ pr.commits)
    {fd : FileData} (hfd : fd ∈ cd.files) :
    fileId repo.full_name fd ∈ (processRepo st repo).seen "File" := by
  unfold processRepo
  exact foldl_estab _ (fun st' => fileId repo.full_name fd ∈ st'.seen "File")
    (fun st' y h => (mono_processPR _ st' y).2.2 _ _ h)
    hpr (fun st' => processPR_seen_file _ st' pr hcd hfd) _

lemma finalState_seen_sha {data : List RepoData} {repo : RepoData}
    (hr : repo ∈ data) {pr : PRData} (hpr : pr ∈ repo.pull_requests)
    {cd : CommitData} (hcd : cd ∈ pr.commits) :
    cd.sha ∈ (finalState data).seen "Commit" := by
  unfold finalState
  exact foldl_estab _ (fun st' => cd.sha ∈ st'.seen "Commit")
    (fun st' y h => (mono_processRepo st' y).2.2 _ _ h)
    hr (fun st' => processRepo_seen_sha st' repo hpr hcd) _

lemma finalState_seen_file {data : List RepoData} {repo : RepoData}
    (hr : repo ∈ data) {pr : PRData} (hpr : pr ∈ repo.pull_requests)
    {cd : CommitData} (hcd : cd ∈ pr.commits)
    {fd : FileData} (hfd : fd ∈ cd.files) :
    fileId repo.full_name fd ∈ (finalState data).seen "File" := by
  unfold finalState
  exact foldl_estab _ (fun st' => fileId repo.full_name fd ∈ st'.seen "File")
    (fun st' y h => (mono_processRepo st' y).2.2 _ _ h)
    hr (fun st' => processRepo_seen_file st' repo hpr hcd hfd) _

/-! ## Claim C3 -/

/-- Claim C3: the builder emits at most one node per (label, key) pair;
processing the same raw input twice in one run (`data ++ data`) still
yields duplicate-free node keys per label, while the non-deduplicated
`CONTRIBUTED_TO_TECHNOLOGY` edge count exactly doubles. -/
theorem c3_node_dedup_idempotent_edges_linear (data : List RepoData) :
    (pairsOf (process_raw_data (some data)).1).Nodup
    ∧ (pairsOf (process_raw_data (some (data ++ data))).1).Nodup
    ∧ (((process_raw_data (some (data ++ data))).2).filter isC2T).length =
        2 * (((process_raw_data (some data)).2).filter isC2T).length := by
  refine ⟨(inv_finalState data).2, (inv_finalState (data ++ data)).2, ?_⟩
  rw [process_edges_eq, process_edges_eq]
  unfold specEdges
  rw [List.flatMap_append, List.filter_append, List.length_append, two_mul]

/-! ## Claim C4 -/

/-- Claim C4: a pull request whose author is `null`/missing contributes
no `AUTHORED` and no `CONTRIBUTED_TO_TECHNOLOGY` edges (its contribution
`prEdges` — the decomposition proved by the second conjunct — contains
neither), yet each of its commits still yields a `Commit` node, an
`INCLUDES` edge, and for each changed file a `File` node and a `MODIFIED`
edge in the final output. -/
theorem c4_null_author_keeps_commits_files (data : List RepoData)
    (repo : RepoData) (pr : PRData) (hr : repo ∈ data)
    (hpr : pr ∈ repo.pull_requests) (ha : pr.author = none) :
    (∀ e ∈ prEdges repo.full_name pr,
        e.relationship ≠ "AUTHORED" ∧ e.relationship ≠ "CONTRIBUTED_TO_TECHNOLOGY")
    ∧ (process_raw_data (some data)).2 = specEdges data
    ∧ ∀ cd ∈ pr.commits,
        ("Commit", cd.sha) ∈ pairsOf (process_raw_data (some data)).1
        ∧ (⟨prIdOf repo.full_name pr, cd.sha, "INCLUDES", none⟩ : Edge)
            ∈ (process_raw_data (some data)).2
        ∧ ∀ fd ∈ cd.files,
            ("File", fileId repo.full_name fd) ∈ pairsOf (process_raw_data (some data)).1
            ∧ (⟨cd.sha, fileId repo.full_name fd, "MODIFIED", none⟩ : Edge)
                ∈ (process_raw_data (some data)).2 := by
  have hna : normAuthor pr = none := by unfold normAuthor; rw [ha]
  refine ⟨?_, process_edges_eq data, ?_⟩
  · intro e he
    unfold prEdges at he
    rw [hna] at he
    rw [List.nil_append] at he
    obtain ⟨cd, _, he⟩ := List.mem_flatMap.mp he
    unfold commitEdges at he
    rcases List.mem_cons.mp he with h | h
    · subst h
      exact ⟨show "INCLUDES" ≠ "AUTHORED" by decide,
             show "INCLUDES" ≠ "CONTRIBUTED_TO_TECHNOLOGY" by decide⟩
    · obtain ⟨fd, _, hf⟩ := List.mem_flatMap.mp h
      unfold fileEdges c2tEdges at hf
      rcases List.mem_cons.mp hf with h' | h'
      · subst h'
        exact ⟨show "MODIFIED" ≠ "AUTHORED" by decide,
               show "MODIFIED" ≠ "CONTRIBUTED_TO_TECHNOLOGY" by decide⟩
      · simp only [] at h'
        cases h'
  · intro cd hcd
    have hseen := (inv_finalState data).1
    refine ⟨?_, ?_, ?_⟩
    · exact (hseen "Commit" cd.sha).mp (finalState_seen_sha hr hpr hcd)
    · rw [process_edges_eq]
      refine List.mem_flatMap.mpr ⟨repo, hr, ?_⟩
      unfold repoEdges
      refine List.mem_flatMap.mpr ⟨pr, hpr, ?_⟩
      unfold prEdges
      rw [hna, List.nil_append]
      refine List.mem_flatMap.mpr ⟨cd, hcd, ?_⟩
      unfold commitEdges
      exact List.mem_cons_self _ _
    · intro fd hfd
      refine ⟨?_, ?_⟩
      · exact (hseen "File" (fileId repo.full_name fd)).mp
          (finalState_seen_file hr hpr hcd hfd)
      · rw [process_edges_eq]
        refine List.mem_flatMap.mpr ⟨repo, hr, ?_⟩
        unfold repoEdges
        refine List.mem_flatMap.mpr ⟨pr, hpr, ?_⟩
        unfold prEdges
        rw [hna, List.nil_append]
        refine List.mem_flatMap.mpr ⟨cd, hcd, ?_⟩
        unfold commitEdges
        refine List.mem_cons_of_mem _ ?_
        refine List.mem_flatMap.mpr ⟨fd, hfd, ?_⟩
        unfold fileEdges
        exact List.mem_cons_self _ _

/-- A pull request with a `null` author, one commit and one file. -/
def c4PR : PRData :=
  { number := 2, title := "t2", body := "b2", url := "pu2",
    created_at := "ca2", merged_at := "ma2", author := none,
    commits :=
      [{ sha := "c9", message := "m9", committed_at := "ct9",
         files := [{ filename := "f.txt", patch := none }] }] }

def c4Repo : RepoData :=
  { full_name := "acme/lib", name := "lib", description := "d2",
    language := "Python", url := "u2", pull_requests := [c4PR] }

/-- Witness for C4 at a concrete null-author input: the commit/file nodes
and connecting edges are present while the PR's own edge contribution has
no `AUTHORED` or `CONTRIBUTED_TO_TECHNOLOGY` edge. -/
theorem c4_null_author_keeps_commits_files_witness :
    ("Commit", "c9") ∈ pairsOf (process_raw_data (some [c4Repo])).1
    ∧ (⟨"acme/lib/pr/2", "c9", "INCLUDES", none⟩ : Edge)
        ∈ (process_raw_data (some [c4Repo])).2
    ∧ ("File", "acme/lib/f.txt") ∈ pairsOf (process_raw_data (some [c4Repo])).1
    ∧ (⟨"c9", "acme/lib/f.txt", "MODIFIED", none⟩ : Edge)
        ∈ (process_raw_data (some [c4Repo])).2
    ∧ (prEdges c4Repo.full_name c4PR).filter
        (fun e => e.relationship == "AUTHORED" ||
                  e.relationship == "CONTRIBUTED_TO_TECHNOLOGY") = [] := by
  have h := c4_null_author_keeps_commits_files [c4Repo] c4Repo c4PR
    (List.mem_singleton.mpr rfl) (List.mem_singleton.mpr rfl) rfl
  obtain ⟨-, -, h3⟩ := h
  obtain ⟨hn, he, hf⟩ := h3 ⟨"c9", "m9", "ct9", [⟨"f.txt", none⟩]⟩
    (List.mem_singleton.mpr rfl)
  obtain ⟨hfn, hfe⟩ := hf ⟨"f.txt", none⟩ (List.mem_singleton.mpr rfl)
  exact ⟨hn, he, hfn, hfe, by decide⟩

/-! ## Claim C5: the Technology Classifier contract -/

/-- Claim C5: whenever a catalog pattern matches anywhere in a diff text
(case-insensitively — the matcher is case-insensitive by construction,
mirroring the unconditional `re.IGNORECASE`), the classifier's result
contains that technology's name; absent (`None`) or empty input yields
the empty set, never an error (the function is total). -/
theorem c5_classifier_catalog_matches :
    (∀ (tech : String) (pat : Rgx) (text : String),
        (tech, pat) ∈ TECHNOLOGY_PATTERNS → rsearch pat text.data = true →
        tech ∈ analyze_patch_for_tech (some text))
    ∧ analyze_patch_for_tech none = []
    ∧ analyze_patch_for_tech (some "") = [] := by
  refine ⟨?_, rfl, rfl⟩
  intro tech pat text hmem hsearch
  show tech ∈
    (if text = "" then []
     else TECHNOLOGY_PATTERNS.filterMap
       (fun tp => if rsearch tp.2 text.data then some tp.1 else none))
  by_cases ht : text = ""
  · exfalso
    subst ht
    have hnn : nullable pat = false := by
      have hall : TECHNOLOGY_PATTERNS.all (fun tp => !(nullable tp.2)) = true := by decide
      have h2 := List.all_eq_true.mp hall (tech, pat) hmem
      simpa using h2
    have : rsearch pat ("" : String).data = nullable pat := rfl
    rw [this, hnn] at hsearch
    cases hsearch
  · rw [if_neg ht]
    refine List.mem_filterMap.mpr ⟨(tech, pat), hmem, ?_⟩
    simp only [hsearch]
    rfl

/-- Witness for C5: `"import pandas as pd"` matches the Pandas pattern and
the classifier reports `Pandas`. -/
theorem c5_classifier_catalog_matches_witness :
    ("Pandas", pandasPat) ∈ TECHNOLOGY_PATTERNS
    ∧ rsearch pandasPat ("import pandas as pd").data = true
    ∧ "Pandas" ∈ analyze_patch_for_tech (some "import pandas as pd") := by
  refine ⟨by decide, by decide, ?_⟩
  exact c5_classifier_catalog_matches.1 "Pandas" pandasPat "import pandas as pd"
    (by decide) (by decide)

/-! ## The loaded graph store (Neo4j after `loader_graph.py`)

Nodes carry their `id` property (the merge key) and label; relationships
carry `{in_pr, in_commit}` provenance when the builder emitted it. -/

structure Graph where
  nodes : List Node
  edges : List Edge
deriving DecidableEq

/-- A property value of a node (`node.title`, `node.message`, …). -/
def propOf (n : Node) (key : String) : String :=
  ((n.properties.find? fun kv => kv.1 == key).map (·.2)).getD ""

/-- The `in_pr` provenance property of an edge (`null` when absent). -/
def inPrOf (e : Edge) : Option String := e.properties.map (·.in_pr)

/-- First-occurrence deduplication, seen-accumulator form. -/
def dedupFirstAux {α : Type} [DecidableEq α] (seen : List α) : List α → List α
  | [] => []
  | a :: l => if a ∈ seen then dedupFirstAux seen l else a :: dedupFirstAux (a :: seen) l

/-- First-occurrence deduplication (Cypher's `DISTINCT` over an ordered
row stream). -/
def dedupFirst {α : Type} [DecidableEq α] (l : List α) : List α :=
  dedupFirstAux [] l

lemma mem_dedupFirstAux {α : Type} [DecidableEq α] :
    ∀ (l seen : List α) (a : α), a ∈ dedupFirstAux seen l ↔ (a ∈ l ∧ a ∉ seen) := by
  intro l
  induction l with
  | nil => intro seen a; simp [dedupFirstAux]
  | cons x l ih =>
      intro seen a
      unfold dedupFirstAux
      by_cases hx : x ∈ seen
      · rw [if_pos hx, ih]
        simp only [List.mem_cons]
        constructor
        · rintro ⟨h1, h2⟩; exact ⟨Or.inr h1, h2⟩
        · rintro ⟨h1 | h1, h2⟩
          · exact absurd (h1 ▸ hx) h2
          · exact ⟨h1, h2⟩
      · rw [if_neg hx]
        simp only [List.mem_cons, ih, List.mem_cons]
        constructor
        · rintro (h | ⟨h1, h2⟩)
          · exact ⟨Or.inl h, h ▸ hx⟩
          · exact ⟨Or.inr h1, fun hc => h2 (Or.inr hc)⟩
        · rintro ⟨h1 | h1, h2⟩
          · exact Or.inl h1
          · by_cases hax : a = x
            · exact Or.inl hax
            · exact Or.inr ⟨h1, fun hc => (hc.elim hax fun hs => h2 hs)⟩

lemma mem_dedupFirst {α : Type} [DecidableEq α] (l : List α) (a : α) :
    a ∈ dedupFirst l ↔ a ∈ l := by
  unfold dedupFirst
  rw [mem_dedupFirstAux]
  simp

lemma nodup_dedupFirstAux {α : Type} [DecidableEq α] :
    ∀ (l seen : List α), (dedupFirstAux seen l).Nodup := by
  intro l
  induction l with
  | nil => intro seen; exact List.nodup_nil
  | cons x l ih =>
      intro seen
      unfold dedupFirstAux
      by_cases hx : x ∈ seen
      · rw [if_pos hx]; exact ih seen
      · rw [if_neg hx]
        refine List.nodup_cons.mpr ⟨?_, ih (x :: seen)⟩
        intro hc
        exact ((mem_dedupFirstAux l (x :: seen) x).mp hc).2 (List.mem_cons_self x seen)

lemma nodup_dedupFirst {α : Type} [DecidableEq α] (l : List α) :
    (dedupFirst l).Nodup := nodup_dedupFirstAux l []

/-! ## Retrieval Engine (`qa_engine.py`) -/

/-- Reachability along `INCLUDES` edges (the Cypher `-[:INCLUDES*0..]->`
pattern), with fuel bounded by the graph size — sufficient, since a
shortest witnessing walk never repeats a node. -/
def reachableIncludesFuel (g : Graph) : Nat → String → String → Bool
  | 0, src, tgt => src == tgt
  | fuel + 1, src, tgt =>
      src == tgt ||
      g.edges.any fun e =>
        e.relationship == "INCLUDES" && e.source == src &&
        reachableIncludesFuel g fuel e.target tgt

def reachIncl (g : Graph) (src tgt : String) : Bool :=
  reachableIncludesFuel g (g.nodes.length + g.edges.length) src tgt

/-- `MATCH (author:User)-[:AUTHORED]->(pr:PullRequest)-[:INCLUDES*0..]->(node)`:
the (author, pr) node pairs that reach the candidate node. -/
def authorPrPairs (g : Graph) (nodeId : String) : List (Node × Node) :=
  g.edges.flatMap fun e =>
    if e.relationship == "AUTHORED" then
      (g.nodes.filter fun a => a.id == e.source && a.label == "User").flatMap fun a =>
        (g.nodes.filter fun p => p.id == e.target && p.label == "PullRequest").flatMap
          fun p => if reachIncl g p.id nodeId then [(a, p)] else []
    else []

/-- The `(author, pr, node)` groups of the enrichment query: `UNWIND` the
candidate ids, match the node by `id`, match author/PR, and group (the
query's aggregation keys are exactly `author, pr, node`, so duplicate rows
collapse — `dedupFirst`). -/
def enrichmentTriples (g : Graph) (node_ids : List String) :
    List (Node × Node × Node) :=
  dedupFirst <| node_ids.flatMap fun i =>
    (g.nodes.filter fun n => n.id == i).flatMap fun node =>
      (authorPrPairs g node.id).map fun ap => (ap.1, ap.2, node)

/-- `OPTIONAL MATCH (author)-[r:CONTRIBUTED_TO_TECHNOLOGY {in_pr: pr.id}]->
(tech:Technology)` followed by `COLLECT(DISTINCT tech.name)`. -/
def techsForPR (g : Graph) (authorId prId : String) : List String :=
  dedupFirst <|
    (g.edges.filter fun e =>
        e.relationship == "CONTRIBUTED_TO_TECHNOLOGY" && e.source == authorId &&
        inPrOf e == some prId).flatMap fun e =>
      (g.nodes.filter fun t => t.id == e.target && t.label == "Technology").map
        fun t => propOf t "name"

/-- One row of the enrichment query's `RETURN` clause. -/
structure CtxRecord where
  author : String
  node_type : String
  content : String
  pr_url : String
  technologies : List String
deriving DecidableEq

def mkRecord (g : Graph) (author pr node : Node) : CtxRecord :=
  { author := author.id,
    node_type := node.label,
    content :=
      if node.label == "PullRequest" then propOf node "title"
      else if node.label == "Commit" then propOf node "message"
      else "N/A",
    pr_url := propOf pr "url",
    technologies := techsForPR g author.id pr.id }

/-- `KnowledgeRetriever._graph_enrichment`. -/
def graphEnrichment (g : Graph) (node_ids : List String) : List CtxRecord :=
  (enrichmentTriples g node_ids).map fun tr => mkRecord g tr.1 tr.2.1 tr.2.2

/-- One evidence line of `retrieve_context`'s formatting loop. -/
def formatRecord (r : CtxRecord) : String :=
  "- User '" ++ r.author ++ "' worked on a " ++ r.node_type ++
  " with content: '" ++ r.content ++ "'. PR URL: " ++ r.pr_url ++
  ". Involved technologies: " ++
  (if r.technologies.isEmpty then "N/A"
   else String.intercalate ", " r.technologies) ++ ".\n"

/-- `KnowledgeRetriever.retrieve_context`, with the semantic-search result
(the candidate id list) passed in; the second component counts the
graph-store queries issued (`_graph_enrichment` calls). -/
def retrieve_context (g : Graph) (candidate_ids : List String) : String × Nat :=
  if candidate_ids.isEmpty then ("", 0)
  else
    ((graphEnrichment g candidate_ids).foldl (fun acc r => acc ++ formatRecord r) "", 1)

/-! ## Answer Synthesizer (`qa_engine.py`) -/

def noInfoMsg : String :=
  "I couldn't find any relevant information in the knowledge base to answer your question."

/-- The grounding prompt template of `AnswerSynthesizer.generate_answer`. -/
def qaPrompt (query context : String) : String :=
  "You are an AI assistant designed to provide expertise profiles from a GitHub knowledge base.\n" ++
  "Your goal is to answer the user's question based *only* on the provided context.\n" ++
  "Do not make up information. If the context doesn't contain the answer, say so.\n" ++
  "Summarize the findings and identify the key people related to the user's query.\n" ++
  "For each person you identify, cite the evidence from the context.\n\n" ++
  "CONTEXT:\n---\n" ++ context ++ "\n---\n\nUSER QUESTION: " ++ query ++ "\n\nANSWER:\n"

/-- `AnswerSynthesizer.generate_answer`, with the chat-completion call
modelled by `llm`; the second component counts language-model calls. -/
def generate_answer (llm : String → String) (query context : String) : String × Nat :=
  if context = "" then (noInfoMsg, 0)
  else (llm (qaPrompt query context), 1)

/-! ## Claims C9, C7 -/

/-- Claim C9: when semantic search returns zero candidate ids,
`retrieve_context` returns the empty context immediately and issues zero
graph-store queries. -/
theorem c9_no_candidates_no_graph_call (g : Graph) :
    retrieve_context g [] = ("", 0) := rfl

/-- Claim C7: on an empty context, `generate_answer` returns exactly the
fixed "could not find relevant information" message and performs zero
language-model calls, for every model and query. -/
theorem c7_empty_context_no_llm_call (llm : String → String) (query : String) :
    generate_answer llm query "" = (noInfoMsg, 0) := rfl

/-! ## Claim C2 -/

/-- Claim C2: in every context record the enrichment produces, the
technology list is exactly (membership, and duplicate-free) the distinct
names of `Technology` nodes reached from the record's author by
`CONTRIBUTED_TO_TECHNOLOGY` edges whose `in_pr` provenance equals that
record's owning PR id — not the author's technologies globally. -/
theorem c2_pr_scoped_technologies (g : Graph) (ids : List String)
    (a p n : Node) (h : (a, p, n) ∈ enrichmentTriples g ids) :
    (mkRecord g a p n).technologies.Nodup
    ∧ ∀ t : String, t ∈ (mkRecord g a p n).technologies ↔
        ∃ e ∈ g.edges,
          e.relationship = "CONTRIBUTED_TO_TECHNOLOGY" ∧ e.source = a.id ∧
          inPrOf e = some p.id ∧
          ∃ tn ∈ g.nodes, tn.label = "Technology" ∧ tn.id = e.target ∧
            propOf tn "name" = t := by
  constructor
  · show (techsForPR g a.id p.id).Nodup
    unfold techsForPR
    exact nodup_dedupFirst _
  · intro t
    show t ∈ techsForPR g a.id p.id ↔ _
    unfold techsForPR
    rw [mem_dedupFirst]
    simp only [List.mem_flatMap, List.mem_filter, List.mem_map, Bool.and_eq_true,
      beq_iff_eq]
    constructor
    · rintro ⟨e, ⟨he, ⟨hrel, hsrc⟩, hpr⟩, tn, ⟨htn, hid, hlab⟩, hname⟩
      exact ⟨e, he, hrel, hsrc, hpr, tn, htn, hlab, hid, hname⟩
    · rintro ⟨e, he, hrel, hsrc, hpr, tn, htn, hlab, hid, hname⟩
      exact ⟨e, ⟨he, ⟨hrel, hsrc⟩, hpr⟩, tn, ⟨htn, hid, hlab⟩, hname⟩

def aliceNode : Node := ⟨"alice", "User", [("login", "alice")]⟩

def pr1Node : Node :=
  ⟨"acme/app/pr/1", "PullRequest",
   [("title", "Add streaming"), ("body", "b"), ("url", "http://pr1")]⟩

def c1Node : Node := ⟨"c1", "Commit", [("message", "msg1")]⟩

/-- A graph where `alice` authored two PRs and contributed React inside
PR 1 but Vue inside PR 7; candidate `c1` is a commit of PR 1. -/
def c2Graph : Graph :=
  { nodes :=
      [aliceNode, pr1Node,
       ⟨"acme/app/pr/7", "PullRequest",
        [("title", "Other"), ("body", "b"), ("url", "http://pr7")]⟩,
       c1Node,
       ⟨"React", "Technology", [("name", "React")]⟩,
       ⟨"Vue", "Technology", [("name", "Vue")]⟩],
    edges :=
      [⟨"alice", "acme/app/pr/1", "AUTHORED", none⟩,
       ⟨"alice", "acme/app/pr/7", "AUTHORED", none⟩,
       ⟨"acme/app/pr/1", "c1", "INCLUDES", none⟩,
       ⟨"alice", "React", "CONTRIBUTED_TO_TECHNOLOGY", some ⟨"acme/app/pr/1", "c1"⟩⟩,
       ⟨"alice", "Vue", "CONTRIBUTED_TO_TECHNOLOGY", some ⟨"acme/app/pr/7", "c9"⟩⟩] }

/-- Witness for C2: for candidate commit `c1`, the record's technology
list contains React (contributed in the owning PR 1) but not Vue (a
technology of the same author from a different PR). -/
theorem c2_pr_scoped_technologies_witness :
    (aliceNode, pr1Node, c1Node) ∈ enrichmentTriples c2Graph ["c1"]
    ∧ "React" ∈ (mkRecord c2Graph aliceNode pr1Node c1Node).technologies
    ∧ "Vue" ∉ (mkRecord c2Graph aliceNode pr1Node c1Node).technologies := by
  have h : (aliceNode, pr1Node, c1Node) ∈ enrichmentTriples c2Graph ["c1"] := by decide
  have hthm := c2_pr_scoped_technologies c2Graph ["c1"] aliceNode pr1Node c1Node h
  refine ⟨h, (hthm.2 "React").mpr (by decide), fun hv => ?_⟩
  have := (hthm.2 "Vue").mp hv
  revert this
  decide

/-! ## Graph Analyzer (`graph_analyzer.py`) -/

/-- The `(r, tech)` match rows of
`MATCH (u)-[r:CONTRIBUTED_TO_TECHNOLOGY]->(t:Technology)`, projected to
`t.name` (one entry per matching edge/technology-node pair). -/
def userTechMatches (g : Graph) (uid : String) : List String :=
  (g.edges.filter fun e =>
      e.relationship == "CONTRIBUTED_TO_TECHNOLOGY" && e.source == uid).flatMap fun e =>
    (g.nodes.filter fun t => t.id == e.target && t.label == "Technology").map
      fun t => propOf t "name"

/-- The first subquery's rows: `t.name, count(r)` grouped by name, ordered
by count descending. -/
def userTechRows (g : Graph) (uid : String) : List (String × Nat) :=
  let rows := userTechMatches g uid
  ((dedupFirst rows).map fun nm => (nm, (rows.filter fun x => x == nm).length)).mergeSort
    fun a b => Nat.ble b.2 a.2

/-- The second subquery: up to 10 commit messages via
`(u)-[:AUTHORED]->(:PullRequest)-[:INCLUDES]->(c:Commit)`. -/
def userCommitMessages (g : Graph) (uid : String) : List String :=
  ((g.edges.filter fun e =>
      e.relationship == "AUTHORED" && e.source == uid).flatMap fun e =>
    (g.nodes.filter fun p => p.id == e.target && p.label == "PullRequest").flatMap
      fun p =>
        (g.edges.filter fun i => i.relationship == "INCLUDES" && i.source == p.id).flatMap
          fun i =>
            (g.nodes.filter fun c => c.id == i.target && c.label == "Commit").map
              fun c => propOf c "message").take 10

/-- One row of the user-expertise query's `RETURN`. -/
structure ExpertiseRow where
  technology : String
  contribution_count : Nat
  recent_commits : List String
deriving DecidableEq

/-- The query's result rows: the `MATCH (u:User {id: $user_id})` rows
joined (`CALL` subquery semantics: a row is dropped when a non-aggregating
subquery yields no rows) with the ranked technology rows; the aggregating
commit subquery always yields exactly one row. -/
def userExpertiseRecords (g : Graph) (uid : String) : List ExpertiseRow :=
  (g.nodes.filter fun u => u.label == "User" && u.id == uid).flatMap fun _ =>
    (userTechRows g uid).map fun tc =>
      ⟨tc.1, tc.2, userCommitMessages g uid⟩

def noDataMsg : String := "No data found for this user."

def noDataSynthMsg : String :=
  "I could not find any data in the knowledge base for this query."

/-- The grounding prompt of `GraphAnalyzer._synthesize_answer`. -/
def synthFullPrompt (prompt context : String) : String :=
  "You are an expert engineering analyst. Based *only* on the provided context below, answer the user's question in a clear, concise summary.\n\n" ++
  "CONTEXT:\n---\n" ++ context ++ "\n---\n\nQUESTION: " ++ prompt ++ "\n\nANSWER:\n"

/-- `GraphAnalyzer._synthesize_answer`. -/
def synthesize_answer (llm : String → String) (prompt context : String) : String :=
  if context = "" then noDataSynthMsg
  else llm (synthFullPrompt prompt context)

/-- `GraphAnalyzer.get_user_expertise`, with the graph-store result
computed by the query model and the chat completion modelled by `llm`. -/
def get_user_expertise (g : Graph) (llm : String → String) (user_id : String) :
    String :=
  let question := "What expertise does user '" ++ user_id ++ "' have?"
  let records := userExpertiseRecords g user_id
  if records.isEmpty then noDataMsg
  else
    let context1 := "Ranked Technology Contributions:\n" ++
      String.join (records.map fun r =>
        if r.technology ≠ "" then
          "- " ++ r.technology ++ ": " ++ toString r.contribution_count ++
          " contributions\n"
        else "")
    let context2 :=
      match records with
      | [] => context1
      | r0 :: _ =>
          if r0.recent_commits.isEmpty then context1
          else
            context1 ++ "\nSample of recent commit messages:\n" ++
              String.join (r0.recent_commits.map fun m => "- " ++ m.trim ++ "\n")
    synthesize_answer llm question context2

/-! ## Claim C8 -/

/-- Claim C8: when the `User` node does not exist, or the user has no
`CONTRIBUTED_TO_TECHNOLOGY` edge, the user-expertise operation returns
the "no data found" sentinel text — it neither raises (it is a total
function) nor renders an empty list as an answer. -/
theorem c8_user_expertise_no_data_sentinel (g : Graph) (llm : String → String)
    (uid : String)
    (h : (∀ n ∈ g.nodes, ¬(n.label = "User" ∧ n.id = uid)) ∨
         (∀ e ∈ g.edges, ¬(e.relationship = "CONTRIBUTED_TO_TECHNOLOGY" ∧ e.source = uid))) :
    get_user_expertise g llm uid = noDataMsg := by
  have hrec : userExpertiseRecords g uid = [] := by
    unfold userExpertiseRecords
    rcases h with h | h
    · have hf : (g.nodes.filter fun u => u.label == "User" && u.id == uid) = [] := by
        rw [List.filter_eq_nil_iff]
        intro u hu
        simp only [Bool.and_eq_true, beq_iff_eq]
        intro hc
        exact h u hu hc
      rw [hf]
      rfl
    · have hf : (g.edges.filter fun e =>
          e.relationship == "CONTRIBUTED_TO_TECHNOLOGY" && e.source == uid) = [] := by
        rw [List.filter_eq_nil_iff]
        intro e he
        simp only [Bool.and_eq_true, beq_iff_eq]
        intro hc
        exact h e he hc
      have hmatch : userTechMatches g uid = [] := by
        unfold userTechMatches
        rw [hf]
        rfl
      have hrows : userTechRows g uid = [] := by
        unfold userTechRows
        rw [hmatch]
        simp [dedupFirst, dedupFirstAux, List.mergeSort_nil]
      rw [hrows]
      simp
  simp only [get_user_expertise, hrec]
  rfl

def c8Graph : Graph :=
  { nodes := [⟨"bob", "User", [("login", "bob")]⟩], edges := [] }

/-- Witness for C8: user `bob` exists but has zero contribution edges, and
the operation returns the sentinel. -/
theorem c8_user_expertise_no_data_sentinel_witness :
    get_user_expertise c8Graph (fun _ => "LLM-ANSWER") "bob" = noDataMsg
    ∧ (∃ n ∈ c8Graph.nodes, n.label = "User" ∧ n.id = "bob") := by
  refine ⟨?_, by decide⟩
  exact c8_user_expertise_no_data_sentinel c8Graph (fun _ => "LLM-ANSWER") "bob"
    (Or.inr (by decide))

/-! ## Vector Index Builder (`loader_vector.py`)

The embedding model is an arbitrary function `embed : String → E`; the
store holds `(id, embedding, document)` entries.  ChromaDB itself is an
external collaborator. `upsertEntry` is modelled from the spec: the
vector-store write is an upsert keyed by the entry's id (`collection.add`
in the source; the spec's §4.4/§6 interface specifies idempotent
upsert-by-id semantics for it). -/

/-- Insert-or-update keyed by the entry's id. -/
def upsertEntry {E : Type} :
    List (String × E × String) → String × E × String → List (String × E × String)
  | [], e => [e]
  | kv :: s, e => if kv.1 == e.1 then e :: s else kv :: upsertEntry s e

/-- `range(0, len(l), batch_size)` slicing, fuel-structural so it
evaluates. -/
def chunksAux {α : Type} (bs : Nat) : Nat → List α → List (List α)
  | 0, _ => []
  | _, [] => []
  | fuel + 1, l => l.take bs :: chunksAux bs fuel (l.drop bs)

def chunksOf {α : Type} (bs : Nat) (l : List α) : List (List α) :=
  chunksAux bs l.length l

/-- The representative document of a node (PR: title + body; Commit:
message). -/
def docOf (node : Node) : String :=
  if node.label == "PullRequest" then
    "Title: " ++ propOf node "title" ++ ". Body: " ++ propOf node "body"
  else if node.label == "Commit" then
    "Commit message: " ++ propOf node "message"
  else ""

/-- `nodes_to_embed`: only PullRequest and Commit nodes are embedded. -/
def nodesToEmbed (nodes : List Node) : List Node :=
  nodes.filter fun n => n.label == "PullRequest" || n.label == "Commit"

def zip3 {α β γ : Type} : List α → List β → List γ → List (α × β × γ)
  | a :: as, b :: bs, c :: cs => (a, b, c) :: zip3 as bs cs
  | _, _, _ => []

/-- `collection.add(embeddings=…, documents=…, ids=…)` over one batch. -/
def addBatch {E : Type} (s : List (String × E × String)) (ids : List String)
    (embs : List E) (docs : List String) : List (String × E × String) :=
  (zip3 ids embs docs).foldl upsertEntry s

/-- `generate_and_store_embeddings` (loader_vector.py). -/
def generate_and_store_embeddings {E : Type} (embed : String → E) (batch_size : Nat)
    (nodes : List Node) (store : List (String × E × String)) :
    List (String × E × String) :=
  let nodes_to_embed := nodesToEmbed nodes
  (chunksOf batch_size nodes_to_embed).foldl
    (fun s batch =>
      let ids_to_add := batch.map (·.id)
      let documents_to_add := batch.map docOf
      let embeddings_to_add := documents_to_add.map embed
      addBatch s ids_to_add embeddings_to_add documents_to_add)
    store

/-- The `(id, embedding, document)` entries a run upserts, in order. -/
def entriesOf {E : Type} (embed : String → E) (nodes : List Node) :
    List (String × E × String) :=
  (nodesToEmbed nodes).map fun n => (n.id, embed (docOf n), docOf n)

def keysOf {E : Type} (s : List (String × E × String)) : List String := s.map (·.1)

def lookupStore {E : Type} (s : List (String × E × String)) (k : String) :
    Option (E × String) :=
  (s.find? fun kv => kv.1 == k).map (·.2)

def orO {α : Type} : Option α → Option α → Option α
  | some v, _ => some v
  | none, b => b

/-- The last value the entry list writes at key `k`, if any. -/
def lastWrite {E : Type} (l : List (String × E × String)) (k : String) :
    Option (E × String) :=
  (l.reverse.find? fun e => e.1 == k).map (·.2)

lemma zip3_map_self {α β γ δ : Type} (f : α → β) (g : α → γ) (h : α → δ) :
    ∀ l : List α, zip3 (l.map f) (l.map g) (l.map h) = l.map fun x => (f x, g x, h x) := by
  intro l
  induction l with
  | nil => rfl
  | cons x xs ih => simp [zip3, ih]

lemma chunk_fold {E : Type} (bs : Nat) (hbs : 0 < bs)
    (f : Node → String × E × String) :
    ∀ (fuel : Nat) (l : List Node) (s : List (String × E × String)),
      l.length ≤ fuel →
      (chunksAux bs fuel l).foldl (fun s batch => (batch.map f).foldl upsertEntry s) s
        = (l.map f).foldl upsertEntry s := by
  intro fuel
  induction fuel with
  | zero =>
      intro l s hl
      have : l = [] := List.eq_nil_of_length_eq_zero (Nat.le_zero.mp hl)
      subst this
      rfl
  | succ fuel ih =>
      intro l s hl
      cases l with
      | nil => rfl
      | cons x xs =>
          show ((x :: xs).take bs :: chunksAux bs fuel ((x :: xs).drop bs)).foldl _ s = _
          rw [List.foldl_cons]
          have hdrop : ((x :: xs).drop bs).length ≤ fuel := by
            rw [List.length_drop]
            have h1 : (x :: xs).length - bs ≤ (x :: xs).length - 1 :=
              Nat.sub_le_sub_left hbs _
            have h2 : (x :: xs).length - 1 = xs.length := by simp
            have h3 : xs.length ≤ fuel := by simpa using hl
            omega
          rw [ih _ _ hdrop]
          rw [← List.foldl_append]
          rw [← List.map_append, List.take_append_drop]

lemma run_eq_entries_fold {E : Type} (embed : String → E) (bs : Nat) (hbs : 0 < bs)
    (nodes : List Node) (s : List (String × E × String)) :
    generate_and_store_embeddings embed bs nodes s =
      (entriesOf embed nodes).foldl upsertEntry s := by
  have hbatch : (fun (s : List (String × E × String)) (batch : List Node) =>
      addBatch s (batch.map (·.id)) ((batch.map docOf).map embed) (batch.map docOf))
      = fun s batch =>
          (batch.map fun n => (n.id, embed (docOf n), docOf n)).foldl upsertEntry s := by
    funext s batch
    unfold addBatch
    rw [List.map_map, zip3_map_self]
    rfl
  show (chunksOf bs (nodesToEmbed nodes)).foldl _ s = _
  unfold chunksOf entriesOf
  calc (chunksAux bs (nodesToEmbed nodes).length (nodesToEmbed nodes)).foldl
        (fun s batch =>
          addBatch s (batch.map (·.id)) ((batch.map docOf).map embed) (batch.map docOf)) s
      = (chunksAux bs (nodesToEmbed nodes).length (nodesToEmbed nodes)).foldl
        (fun s batch =>
          (batch.map fun n => (n.id, embed (docOf n), docOf n)).foldl upsertEntry s) s := by
        rw [hbatch]
    _ = ((nodesToEmbed nodes).map fun n => (n.id, embed (docOf n), docOf n)).foldl
          upsertEntry s :=
        chunk_fold bs hbs _ _ _ s (Nat.le_refl _)

lemma keysOf_cons {E : Type} (kv : String × E × String) (s) :
    keysOf (kv :: s) = kv.1 :: keysOf s := rfl

lemma lookupStore_nil {E : Type} (k : String) :
    lookupStore ([] : List (String × E × String)) k = none := rfl

lemma lookupStore_cons {E : Type} (kv : String × E × String) (s) (k : String) :
    lookupStore (kv :: s) k = if kv.1 = k then some kv.2 else lookupStore s k := by
  unfold lookupStore
  by_cases h : kv.1 = k
  · rw [List.find?_cons_of_pos _ (by simpa [beq_iff_eq] using h), if_pos h]
    rfl
  · rw [List.find?_cons_of_neg _ (by simpa [beq_iff_eq] using h), if_neg h]

lemma upsert_lookup {E : Type} (s : List (String × E × String))
    (e : String × E × String) (k : String) :
    lookupStore (upsertEntry s e) k =
      if k = e.1 then some e.2 else lookupStore s k := by
  induction s with
  | nil =>
      by_cases hk : k = e.1
      · rw [show upsertEntry ([] : List (String × E × String)) e = [e] from rfl,
          lookupStore_cons, if_pos hk.symm, if_pos hk]
      · rw [show upsertEntry ([] : List (String × E × String)) e = [e] from rfl,
          lookupStore_cons, if_neg (fun h => hk h.symm), if_neg hk]
  | cons kv s ih =>
      unfold upsertEntry
      by_cases hkv : kv.1 = e.1
      · rw [if_pos (beq_iff_eq.mpr hkv), lookupStore_cons]
        by_cases hk : k = e.1
        · rw [if_pos hk.symm, if_pos hk]
        · have hkvk : ¬ kv.1 = k := fun h => hk (h ▸ hkv)
          rw [if_neg (fun h => hk h.symm), if_neg hk, lookupStore_cons, if_neg hkvk]
      · rw [if_neg (by simp [beq_iff_eq, hkv]), lookupStore_cons]
        by_cases hkvk : kv.1 = k
        · have hk : ¬ k = e.1 := fun hc => hkv (hkvk.trans hc)
          rw [if_pos hkvk, if_neg hk, lookupStore_cons, if_pos hkvk]
        · rw [if_neg hkvk, ih, lookupStore_cons, if_neg hkvk]

lemma upsert_keys {E : Type} (s : List (String × E × String))
    (e : String × E × String) :
    keysOf (upsertEntry s e) =
      if e.1 ∈ keysOf s then keysOf s else keysOf s ++ [e.1] := by
  induction s with
  | nil => simp [upsertEntry, keysOf]
  | cons kv s ih =>
      unfold upsertEntry
      by_cases hkv : kv.1 = e.1
      · rw [if_pos (beq_iff_eq.mpr hkv)]
        have hmem : e.1 ∈ keysOf (kv :: s) := by
          rw [keysOf_cons]
          exact List.mem_cons.mpr (Or.inl hkv.symm)
        rw [if_pos hmem, keysOf_cons, keysOf_cons, hkv]
      · rw [if_neg (by simp [beq_iff_eq, hkv])]
        by_cases hmem : e.1 ∈ keysOf s
        · have hmem' : e.1 ∈ keysOf (kv :: s) := by
            rw [keysOf_cons]
            exact List.mem_cons.mpr (Or.inr hmem)
          rw [if_pos hmem', keysOf_cons, keysOf_cons, ih, if_pos hmem]
        · have hmem' : e.1 ∉ keysOf (kv :: s) := by
            rw [keysOf_cons]
            intro hc
            rcases List.mem_cons.mp hc with h | h
            · exact hkv h.symm
            · exact hmem h
          rw [if_neg hmem', keysOf_cons, keysOf_cons, ih, if_neg hmem,
            List.cons_append]

lemma lookup_none_of_not_mem_keys {E : Type} :
    ∀ (s : List (String × E × String)) (k : String),
      k ∉ keysOf s → lookupStore s k = none := by
  intro s
  induction s with
  | nil => intro k _; rfl
  | cons kv s ih =>
      intro k h
      rw [keysOf_cons] at h
      rw [lookupStore_cons, if_neg (fun hc => h (List.mem_cons.mpr (Or.inl hc.symm)))]
      exact ih k fun hc => h (List.mem_cons.mpr (Or.inr hc))

lemma store_ext {E : Type} :
    ∀ (s t : List (String × E × String)),
      keysOf s = keysOf t → (keysOf s).Nodup →
      (∀ k, lookupStore s k = lookupStore t k) → s = t := by
  intro s
  induction s with
  | nil =>
      intro t hk _ _
      cases t with
      | nil => rfl
      | cons kv t => simp [keysOf] at hk
  | cons kv s ih =>
      intro t hk hnd hl
      cases t with
      | nil => simp [keysOf] at hk
      | cons kv' t =>
          rw [keysOf_cons, keysOf_cons] at hk
          injection hk with hk1 hk2
          have hhead : kv.2 = kv'.2 := by
            have hv := hl kv.1
            rw [lookupStore_cons, lookupStore_cons, if_pos rfl, if_pos hk1.symm] at hv
            injection hv
          have hkveq : kv = kv' := by
            cases kv; cases kv'
            simp_all
          rw [keysOf_cons] at hnd
          have hndc := List.nodup_cons.mp hnd
          have htail : ∀ k, lookupStore s k = lookupStore t k := by
            intro k
            by_cases hkk : kv.1 = k
            · subst hkk
              rw [lookup_none_of_not_mem_keys s _ hndc.1,
                lookup_none_of_not_mem_keys t _ (hk2 ▸ hndc.1)]
            · have hv := hl k
              rw [lookupStore_cons, lookupStore_cons, if_neg hkk,
                if_neg (hk1 ▸ hkk)] at hv
              exact hv
          rw [hkveq, ih t hk2 hndc.2 htail]

lemma nodup_keys_upsert {E : Type} (s : List (String × E × String))
    (e : String × E × String) (h : (keysOf s).Nodup) :
    (keysOf (upsertEntry s e)).Nodup := by
  rw [upsert_keys]
  split
  · exact h
  · rename_i hmem
    rw [show keysOf s ++ [e.1] = keysOf s ++ e.1 :: [] from rfl, List.nodup_middle]
    simpa using ⟨hmem, h⟩

lemma nodup_keys_foldl {E : Type} (l : List (String × E × String)) :
    ∀ s, (keysOf s).Nodup → (keysOf (l.foldl upsertEntry s)).Nodup := by
  induction l with
  | nil => intro s h; exact h
  | cons e l ih => intro s h; exact ih _ (nodup_keys_upsert s e h)

lemma mem_keys_upsert_self {E : Type} (s : List (String × E × String))
    (e : String × E × String) : e.1 ∈ keysOf (upsertEntry s e) := by
  rw [upsert_keys]
  split
  · assumption
  · simp

lemma mem_keys_upsert_of_mem {E : Type} (s : List (String × E × String))
    (e : String × E × String) {k : String} (h : k ∈ keysOf s) :
    k ∈ keysOf (upsertEntry s e) := by
  rw [upsert_keys]
  split
  · exact h
  · exact List.mem_append_left _ h

lemma mem_keys_foldl_start {E : Type} (l : List (String × E × String)) :
    ∀ (s : List (String × E × String)) (k : String),
      k ∈ keysOf s → k ∈ keysOf (l.foldl upsertEntry s) := by
  induction l with
  | nil => intro s k h; exact h
  | cons x l ih => intro s k h; exact ih _ k (mem_keys_upsert_of_mem s x h)

lemma mem_keys_foldl {E : Type} (l : List (String × E × String)) :
    ∀ (s : List (String × E × String)) (e : String × E × String),
      e ∈ l → e.1 ∈ keysOf (l.foldl upsertEntry s) := by
  induction l with
  | nil => intro s e h; cases h
  | cons x l ih =>
      intro s e h
      rcases List.mem_cons.mp h with h | h
      · subst h
        rw [List.foldl_cons]
        exact mem_keys_foldl_start l _ _ (mem_keys_upsert_self s e)
      · exact ih _ e h

lemma keys_foldl_stable {E : Type} (l : List (String × E × String)) :
    ∀ s, (∀ e ∈ l, e.1 ∈ keysOf s) → keysOf (l.foldl upsertEntry s) = keysOf s := by
  induction l with
  | nil => intro s _; rfl
  | cons e l ih =>
      intro s hall
      rw [List.foldl_cons]
      have h1 : keysOf (upsertEntry s e) = keysOf s := by
        rw [upsert_keys, if_pos (hall e (List.mem_cons_self e l))]
      rw [ih _ fun x hx => h1 ▸ hall x (List.mem_cons_of_mem e hx), h1]

lemma orO_map {α β : Type} (f : α → β) :
    ∀ a b : Option α, (orO a b).map f = orO (a.map f) (b.map f) := by
  intro a b
  cases a <;> rfl

lemma find?_append_or {α : Type} (p : α → Bool) :
    ∀ l₁ l₂ : List α, (l₁ ++ l₂).find? p = orO (l₁.find? p) (l₂.find? p) := by
  intro l₁
  induction l₁ with
  | nil => intro l₂; rfl
  | cons a l ih =>
      intro l₂
      by_cases h : p a
      · rw [List.cons_append, List.find?_cons_of_pos _ h, List.find?_cons_of_pos _ h]
        rfl
      · rw [List.cons_append, List.find?_cons_of_neg _ h, List.find?_cons_of_neg _ h,
          ih]

lemma lastWrite_cons {E : Type} (e : String × E × String)
    (l : List (String × E × String)) (k : String) :
    lastWrite (e :: l) k =
      orO (lastWrite l k) (if k = e.1 then some e.2 else none) := by
  unfold lastWrite
  rw [List.reverse_cons, find?_append_or, orO_map]
  congr 1
  by_cases hk : k = e.1
  · rw [List.find?_cons_of_pos _ (by simpa [beq_iff_eq] using hk.symm), if_pos hk]
    rfl
  · rw [List.find?_cons_of_neg _ (by simp [beq_iff_eq]; exact fun h => hk h.symm),
      if_neg hk]
    rfl

lemma lookup_foldl {E : Type} (l : List (String × E × String)) :
    ∀ (s : List (String × E × String)) (k : String),
      lookupStore (l.foldl upsertEntry s) k = orO (lastWrite l k) (lookupStore s k) := by
  induction l with
  | nil => intro s k; rfl
  | cons e l ih =>
      intro s k
      rw [List.foldl_cons, ih, lastWrite_cons, upsert_lookup]
      cases hllw : lastWrite l k with
      | some v => rfl
      | none =>
          by_cases hk : k = e.1
          · rw [if_pos hk, if_pos hk]
            rfl
          · rw [if_neg hk, if_neg hk]
            rfl

/-- Re-running the upsert fold over the same entries leaves the store
unchanged. -/
lemma foldl_upsert_idem {E : Type} (l s : List (String × E × String))
    (hnd : (keysOf s).Nodup) :
    l.foldl upsertEntry (l.foldl upsertEntry s) = l.foldl upsertEntry s := by
  apply store_ext
  · exact keys_foldl_stable l _ fun e he => mem_keys_foldl l s e he
  · exact nodup_keys_foldl l _ (nodup_keys_foldl l s hnd)
  · intro k
    rw [lookup_foldl, lookup_foldl]
    cases hlw : lastWrite l k with
    | some v => simp [orO]
    | none => simp [orO]

/-! ## Claim C6 -/

/-- Claim C6: over any store whose keys are duplicate-free, the Vector
Index Builder produces the same final store state for any two positive
batch sizes; re-running it over the same input leaves the store unchanged
(idempotence via upsert keyed by the node's graph id); and a run is
exactly the in-order upsert of one `(id, embedding, document)` entry per
PullRequest/Commit node, with the PR document built from title plus body
and the Commit document from the message (`docOf` inside `entriesOf`). -/
theorem c6_batch_invariant_idempotent_upsert {E : Type} (embed : String → E)
    (bs₁ bs₂ : Nat) (nodes : List Node) (store : List (String × E × String))
    (h₁ : 0 < bs₁) (h₂ : 0 < bs₂) (hnd : (keysOf store).Nodup) :
    generate_and_store_embeddings embed bs₁ nodes store =
      generate_and_store_embeddings embed bs₂ nodes store
    ∧ generate_and_store_embeddings embed bs₁ nodes
        (generate_and_store_embeddings embed bs₁ nodes store) =
      generate_and_store_embeddings embed bs₁ nodes store
    ∧ generate_and_store_embeddings embed bs₁ nodes store =
        (entriesOf embed nodes).foldl upsertEntry store := by
  refine ⟨?_, ?_, run_eq_entries_fold embed bs₁ h₁ nodes store⟩
  · rw [run_eq_entries_fold embed bs₁ h₁, run_eq_entries_fold embed bs₂ h₂]
  · rw [run_eq_entries_fold embed bs₁ h₁ nodes
        (generate_and_store_embeddings embed bs₁ nodes store),
      run_eq_entries_fold embed bs₁ h₁ nodes store]
    exact foldl_upsert_idem _ _ hnd

/-- Three nodes, of which only the PullRequest and the Commit are
embedded. -/
def c6Nodes : List Node :=
  [⟨"p1", "PullRequest", [("title", "T1"), ("body", "B1"), ("url", "u")]⟩,
   ⟨"r1", "Repo", [("name", "r")]⟩,
   ⟨"c1", "Commit", [("message", "m1"), ("committed_at", "t")]⟩]

/-- Witness for C6 at batch sizes 2 and 3 over an empty store, with the
embedding model `String.length`: identical final states, idempotent
re-run, and the concrete `(id, embedding, document)` entries. -/
theorem c6_batch_invariant_idempotent_upsert_witness :
    (0 : Nat) < 2 ∧ (0 : Nat) < 3
    ∧ generate_and_store_embeddings String.length 2 c6Nodes [] =
        generate_and_store_embeddings String.length 3 c6Nodes []
    ∧ generate_and_store_embeddings String.length 2 c6Nodes
        (generate_and_store_embeddings String.length 2 c6Nodes []) =
      generate_and_store_embeddings String.length 2 c6Nodes []
    ∧ generate_and_store_embeddings String.length 2 c6Nodes [] =
        [("p1", 19, "Title: T1. Body: B1"), ("c1", 18, "Commit message: m1")] := by
  have h := c6_batch_invariant_idempotent_upsert String.length 2 3 c6Nodes []
    (by decide) (by decide) (by decide)
  exact ⟨by decide, by decide, h.1, h.2.1, by decide⟩

end GKB
